import Mathlib

/-!
Verification of the rotating-key derivation, obfuscation cipher and
lockout/audit mechanism of the ssh-callback-server.

This file gives a shallow embedding, in Lean 4, of the core of
`ssh-callback-server` (`crypto_utils.py` and the authentication part of
`app_secure.py`), and proves or refutes the specified properties.

Bytes are modelled as `Nat` values below 256, byte strings as `List Nat`.
Timestamps are seconds since the Unix epoch, as `Nat` (all relevant times
are after 1970).  The external `hashlib` digests used by the code are
modelled by an abstract `HashLib` record of digest functions; SHA-256,
which determines every concrete byte the code under study produces, is in
addition implemented concretely (FIPS 180-4) so that claims can be settled
at concrete inputs.
-/

namespace VPS

/-! ## SHA-256 (FIPS 180-4), over byte lists -/

namespace SHA256

/-- 2^32. -/
def M32 : Nat := 4294967296

/-- Addition modulo 2^32. -/
def add32 (a b : Nat) : Nat := (a + b) % M32

/-- Right rotation of a 32-bit word (input assumed below 2^32). -/
def rotr32 (n x : Nat) : Nat := ((x >>> n) ||| (x <<< (32 - n))) % M32

/-- Bitwise complement within 32 bits. -/
def not32 (x : Nat) : Nat := 4294967295 - x

/-- Ch(x,y,z). -/
def ch (x y z : Nat) : Nat := (x &&& y) ^^^ (not32 x &&& z)

/-- Maj(x,y,z). -/
def maj (x y z : Nat) : Nat := (x &&& y) ^^^ (x &&& z) ^^^ (y &&& z)

/-- Big Sigma 0. -/
def bsig0 (x : Nat) : Nat := rotr32 2 x ^^^ rotr32 13 x ^^^ rotr32 22 x

/-- Big Sigma 1. -/
def bsig1 (x : Nat) : Nat := rotr32 6 x ^^^ rotr32 11 x ^^^ rotr32 25 x

/-- small sigma 0. -/
def ssig0 (x : Nat) : Nat := rotr32 7 x ^^^ rotr32 18 x ^^^ (x >>> 3)

/-- small sigma 1. -/
def ssig1 (x : Nat) : Nat := rotr32 17 x ^^^ rotr32 19 x ^^^ (x >>> 10)

/-- The 64 SHA-256 round constants, in decimal. -/
def K : List Nat :=
  [1116352408, 1899447441, 3049323471, 3921009573, 961987163, 1508970993,
   2453635748, 2870763221, 3624381080, 310598401, 607225278, 1426881987,
   1925078388, 2162078206, 2614888103, 3248222580, 3835390401, 4022224774,
   264347078, 604807628, 770255983, 1249150122, 1555081692, 1996064986,
   2554220882, 2821834349, 2952996808, 3210313671, 3336571891, 3584528711,
   113926993, 338241895, 666307205, 773529912, 1294757372, 1396182291,
   1695183700, 1986661051, 2177026350, 2456956037, 2730485921, 2820302411,
   3259730800, 3345764771, 3516065817, 3600352804, 4094571909, 275423344,
   430227734, 506948616, 659060556, 883997877, 958139571, 1322822218,
   1537002063, 1747873779, 1955562222, 2024104815, 2227730452, 2361852424,
   2428436474, 2756734187, 3204031479, 3329325298]

/-- The eight initial hash values, in decimal. -/
def IV : List Nat :=
  [1779033703, 3144134277, 1013904242, 2773480762, 1359893119, 2600822924,
   528734635, 1541459225]

/-- Big-endian serialization of a 64-bit length field. -/
def be64 (n : Nat) : List Nat :=
  [n >>> 56 % 256, n >>> 48 % 256, n >>> 40 % 256, n >>> 32 % 256,
   n >>> 24 % 256, n >>> 16 % 256, n >>> 8 % 256, n % 256]

/-- Big-endian serialization of a 32-bit word to four bytes. -/
def be32 (n : Nat) : List Nat :=
  [n / 16777216 % 256, n / 65536 % 256, n / 256 % 256, n % 256]

/-- FIPS 180-4 padding: append `0x80`, zeros, then the 64-bit bit length,
up to a multiple of 64 bytes. -/
def pad (msg : List Nat) : List Nat :=
  let z := (64 - (msg.length + 9) % 64) % 64
  msg ++ 128 :: List.replicate z 0 ++ be64 (8 * msg.length)

/-- Parse a byte list into big-endian 32-bit words. -/
def toWords : List Nat → List Nat
  | a :: b :: c :: d :: rest => (((a * 256 + b) * 256 + c) * 256 + d) :: toWords rest
  | _ => []

/-- Extend the 16 message words by `n` further schedule words. -/
def buildW (w : List Nat) : Nat → List Nat
  | 0 => w
  | n + 1 =>
    let i := w.length
    buildW (w ++ [add32 (add32 (ssig1 (w.getD (i - 2) 0)) (w.getD (i - 7) 0))
                  (add32 (ssig0 (w.getD (i - 15) 0)) (w.getD (i - 16) 0))]) n

/-- One compression round: the state is the list `[a,b,c,d,e,f,g,h]`. -/
def round (s : List Nat) (k w : Nat) : List Nat :=
  match s with
  | [a, b, c, d, e, f, g, h] =>
    let t1 := add32 h (add32 (bsig1 e) (add32 (ch e f g) (add32 k w)))
    let t2 := add32 (bsig0 a) (maj a b c)
    [add32 t1 t2, a, b, c, add32 d t1, e, f, g]
  | _ => s

/-- Process one 64-byte block. -/
def processBlock (h : List Nat) (block : List Nat) : List Nat :=
  let w := buildW (toWords block) 48
  let s := (K.zip w).foldl (fun s kw => round s kw.1 kw.2) h
  List.zipWith add32 h s

/-- Split a byte list into consecutive 64-byte chunks (fuelled). -/
def chunksAux : Nat → List Nat → List (List Nat)
  | 0, _ => []
  | _ + 1, [] => []
  | n + 1, l => l.take 64 :: chunksAux n (l.drop 64)

/-- Split a byte list into consecutive 64-byte chunks. -/
def chunks (l : List Nat) : List (List Nat) := chunksAux l.length l

end SHA256

/-- Concrete SHA-256 digest: 32 bytes. -/
def sha256impl (msg : List Nat) : List Nat :=
  ((SHA256.chunks (SHA256.pad msg)).foldl SHA256.processBlock SHA256.IV).map SHA256.be32 |>.flatten

/-! ## UTF-8 encoding and (strict) decoding

`str.encode("utf-8")` / `bytes.decode("utf-8")` in the Python source. -/

/-- UTF-8 encoding of one unicode scalar value. -/
def utf8EncodeChar (c : Char) : List Nat :=
  let n := c.toNat
  if n < 128 then [n]
  else if n < 2048 then [192 + n / 64, 128 + n % 64]
  else if n < 65536 then [224 + n / 4096, 128 + n / 64 % 64, 128 + n % 64]
  else [240 + n / 262144, 128 + n / 4096 % 64, 128 + n / 64 % 64, 128 + n % 64]

/-- UTF-8 encoding of a string. -/
def utf8Encode (s : String) : List Nat := (s.data.map utf8EncodeChar).flatten

/-- Decode one UTF-8 scalar from the head of a byte list, returning the code
point and the remaining bytes.  Strict: overlong forms, surrogates and
out-of-range values are rejected, exactly as the strict utf-8 codec of Python. -/
def utf8DecodeOne : List Nat → Option (Nat × List Nat)
  | [] => none
  | b0 :: rest =>
    if b0 < 128 then some (b0, rest)
    else if b0 < 194 then none
    else if b0 < 224 then
      match rest with
      | b1 :: rest1 =>
        if 128 ≤ b1 ∧ b1 < 192 then some ((b0 - 192) * 64 + (b1 - 128), rest1) else none
      | _ => none
    else if b0 < 240 then
      match rest with
      | b1 :: b2 :: rest2 =>
        let lo1 := if b0 = 224 then 160 else 128
        let hi1 := if b0 = 237 then 160 else 192
        if (lo1 ≤ b1 ∧ b1 < hi1) ∧ (128 ≤ b2 ∧ b2 < 192) then
          some ((b0 - 224) * 4096 + (b1 - 128) * 64 + (b2 - 128), rest2)
        else none
      | _ => none
    else if b0 < 245 then
      match rest with
      | b1 :: b2 :: b3 :: rest3 =>
        let lo1 := if b0 = 240 then 144 else 128
        let hi1 := if b0 = 244 then 144 else 192
        if (lo1 ≤ b1 ∧ b1 < hi1) ∧ (128 ≤ b2 ∧ b2 < 192) ∧ (128 ≤ b3 ∧ b3 < 192) then
          some ((b0 - 240) * 262144 + (b1 - 128) * 4096 + (b2 - 128) * 64 + (b3 - 128), rest3)
        else none
      | _ => none
    else none

/-- Fuelled strict UTF-8 decoding loop. -/
def utf8DecodeAux : Nat → List Nat → Option (List Char)
  | _, [] => some []
  | 0, _ :: _ => none
  | fuel + 1, l =>
    match utf8DecodeOne l with
    | none => none
    | some (n, rest) =>
      match utf8DecodeAux fuel rest with
      | none => none
      | some cs => some (Char.ofNat n :: cs)

/-- Strict UTF-8 decoding of a byte list, as the Python `bytes.decode("utf-8")`:
`none` models `UnicodeDecodeError`. -/
def utf8Decode (l : List Nat) : Option String :=
  (utf8DecodeAux l.length l).map String.mk

/-! ## Base64 (`base64.b64encode` / `base64.b64decode`) -/

/-- The base64 alphabet character for a 6-bit value. -/
def b64Char (n : Nat) : Char :=
  if n < 26 then Char.ofNat (65 + n)
  else if n < 52 then Char.ofNat (97 + n - 26)
  else if n < 62 then Char.ofNat (48 + n - 52)
  else if n = 62 then Char.ofNat 43
  else Char.ofNat 47

/-- Standard base64 encoding of a byte list, with padding. -/
def b64EncodeBytes : List Nat → List Char
  | [] => []
  | [a] => [b64Char (a / 4), b64Char (a % 4 * 16), Char.ofNat 61, Char.ofNat 61]
  | [a, b] => [b64Char (a / 4), b64Char (a % 4 * 16 + b / 16), b64Char (b % 16 * 4), Char.ofNat 61]
  | a :: b :: c :: rest =>
    b64Char (a / 4) :: b64Char (a % 4 * 16 + b / 16) :: b64Char (b % 16 * 4 + c / 64) ::
      b64Char (c % 64) :: b64EncodeBytes rest

/-- `base64.b64encode(bytes).decode("ascii")`. -/
def b64encode (l : List Nat) : String := String.mk (b64EncodeBytes l)

/-- The 6-bit value of a base64 alphabet character, `none` for other characters. -/
def b64Val (c : Char) : Option Nat :=
  let n := c.toNat
  if 65 ≤ n ∧ n ≤ 90 then some (n - 65)
  else if 97 ≤ n ∧ n ≤ 122 then some (n - 97 + 26)
  else if 48 ≤ n ∧ n ≤ 57 then some (n - 48 + 52)
  else if n = 43 then some 62
  else if n = 47 then some 63
  else none

/-- CPython `binascii.a2b_base64` in non-strict mode: non-alphabet characters
are skipped, a quad completed by padding ends decoding, and a trailing
incomplete quad is an error.  State: remaining characters, position inside the
current quad, pending bits, consecutive pad count, accumulated output
(reversed). -/
def a2b64 : List Char → Nat → Nat → Nat → List Nat → Option (List Nat)
  | [], quadPos, _, _, acc => if quadPos = 0 then some acc.reverse else none
  | c :: cs, quadPos, leftchar, pads, acc =>
    if c.toNat = 61 then
      if 2 ≤ quadPos ∧ 4 ≤ quadPos + (pads + 1) then some acc.reverse
      else a2b64 cs quadPos leftchar (pads + 1) acc
    else
      match b64Val c with
      | none => a2b64 cs quadPos leftchar pads acc
      | some v =>
        match quadPos with
        | 0 => a2b64 cs 1 v 0 acc
        | 1 => a2b64 cs 2 (v % 16) 0 ((leftchar * 4 + v / 16) :: acc)
        | 2 => a2b64 cs 3 (v % 4) 0 ((leftchar * 16 + v / 4) :: acc)
        | _ => a2b64 cs 0 0 0 ((leftchar * 64 + v) :: acc)

/-- `base64.b64decode` applied to a `str`: the string must be pure ASCII
(`str.encode("ascii")`), then the non-strict base64 decoder runs.  `none`
models the raised error. -/
def b64decodeStr (s : String) : Option (List Nat) :=
  if s.data.all (fun c => c.toNat < 128) then a2b64 s.data 0 0 0 [] else none

/-! ## Calendar dates (`datetime.utcfromtimestamp` / `strftime`)

Timestamps are seconds since the Unix epoch; the civil (proleptic Gregorian)
date is computed with the standard era-based algorithm. -/

/-- Civil date `(year, month, day)` of a day count since 1970-01-01. -/
def civilFromDays (days : Nat) : Nat × Nat × Nat :=
  let z := days + 719468
  let era := z / 146097
  let doe := z % 146097
  let yoe := (doe - doe / 1460 + doe / 36524) / 365
  let y0 := yoe + era * 400
  let doy := doe - (365 * yoe + yoe / 4 - yoe / 100)
  let mp := (5 * doy + 2) / 153
  let d := doy - (153 * mp + 2) / 5 + 1
  let m := if mp < 10 then mp + 3 else mp - 9
  (if m ≤ 2 then y0 + 1 else y0, m, d)

/-- Zero-padded two-digit decimal rendering. -/
def pad2 (n : Nat) : String := if n < 10 then "0" ++ toString n else toString n

/-- `datetime.utcfromtimestamp(t).strftime("%Y-%m-%d")` for `t` seconds since
the epoch (all years in range have four digits). -/
def formatDate (t : Nat) : String :=
  let ymd := civilFromDays (t / 86400)
  toString ymd.1 ++ "-" ++ pad2 ymd.2.1 ++ "-" ++ pad2 ymd.2.2

/-- `datetime.utcfromtimestamp(t).strftime("%Y%m%d")`. -/
def formatDateCompact (t : Nat) : String :=
  let ymd := civilFromDays (t / 86400)
  toString ymd.1 ++ pad2 ymd.2.1 ++ pad2 ymd.2.2

/-! ## The external hash library

`crypto_utils.py` calls `hashlib.sha256`, `hashlib.sha512` and `hashlib.md5`.
These are external to the repository, so they are modelled as an abstract
record of digest functions; the theorems assume only their digest lengths
(32, 64 and 16 bytes).  For concrete evaluation the record is instantiated
with the real SHA-256 above; every concrete byte produced by the code paths
under study depends on SHA-256 only. -/

structure HashLib where
  sha256 : List Nat → List Nat
  sha512 : List Nat → List Nat
  md5 : List Nat → List Nat

/-- Stand-in for the external `hashlib.sha512`: only its 64-byte digest
length matters to any theorem below. -/
def sha512Model (m : List Nat) : List Nat := sha256impl m ++ sha256impl (0 :: m)

/-- Stand-in for the external `hashlib.md5`: only its 16-byte digest length
matters to any theorem below. -/
def md5Model (m : List Nat) : List Nat := (sha256impl m).take 16

/-- The hash library used for concrete evaluation: real SHA-256, and
length-correct stand-ins for the two algorithms no concrete claim depends
on. -/
def theHashLib : HashLib := ⟨sha256impl, sha512Model, md5Model⟩

/-! ## `DGAKeyDerivation` (crypto_utils.py, lines 22-152) -/

/-- The seed-and-date hash input `seed + ":" + date_str`, utf-8 encoded,
of `generate_key_for_date`. -/
def dgaHashInput (seed : String) (date : Nat) : List Nat :=
  utf8Encode (seed ++ ":" ++ formatDate date)

/-- The algorithm dispatch of `generate_key_for_date`: any unknown name
falls through to SHA-256. -/
def dgaInitialDigest (H : HashLib) (algorithm : String) (input : List Nat) : List Nat :=
  if algorithm = "sha256" then H.sha256 input
  else if algorithm = "sha512" then H.sha512 input
  else if algorithm = "md5" then H.md5 input
  else H.sha256 input

/-- The `while len(key_material) < key_length` extension loop of
`generate_key_for_date`, with explicit fuel.  Each iteration appends
`sha256(key_material + hash_input)`; with a non-empty digest, `keyLength`
iterations always suffice, so the fuelled function agrees with the Python
loop whenever that loop terminates. -/
def extendKeyMaterial (sha : List Nat → List Nat) (input : List Nat) (keyLength : Nat) :
    Nat → List Nat → List Nat
  | 0, km => km
  | fuel + 1, km =>
    if km.length < keyLength then
      extendKeyMaterial sha input keyLength fuel (km ++ sha (km ++ input))
    else km

/-- `DGAKeyDerivation.generate_key_for_date(date, algorithm, key_length)`,
with the date supplied as epoch seconds. -/
def generate_key_for_date (H : HashLib) (seed : String) (date : Nat)
    (algorithm : String) (keyLength : Nat) : List Nat :=
  let hashInput := dgaHashInput seed date
  let keyMaterial := dgaInitialDigest H algorithm hashInput
  (extendKeyMaterial H.sha256 hashInput keyLength keyLength keyMaterial).take keyLength

/-- `DGAKeyDerivation.generate_rotating_key(rotation_hours, algorithm,
key_length)`, with `datetime.utcnow()` supplied as `now` in epoch seconds. -/
def generate_rotating_key (H : HashLib) (seed : String) (now : Nat)
    (rotationHours : Nat) (algorithm : String) (keyLength : Nat) : List Nat :=
  let hoursSinceEpoch := now / 3600
  let periodStartHours := hoursSinceEpoch / rotationHours * rotationHours
  generate_key_for_date H seed (periodStartHours * 3600) algorithm keyLength

/-- Lowercase hex character of a value below 16. -/
def hexChar (n : Nat) : Char :=
  if n < 10 then Char.ofNat (48 + n) else Char.ofNat (87 + n)

/-- `hashlib.sha256(x).hexdigest()` as a character list, from the digest
bytes. -/
def hexdigest (bytes : List Nat) : List Char :=
  bytes.flatMap (fun b => [hexChar (b / 16), hexChar (b % 16)])

/-- Value of a lowercase hex character (as `int(c, 16)` on the characters
`hexdigest` produces). -/
def hexVal (c : Char) : Nat := if c.toNat ≤ 57 then c.toNat - 48 else c.toNat - 87

/-- `int(s, 16)` on a lowercase-hex character list. -/
def intOfHex (cs : List Char) : Nat := cs.foldl (fun a c => a * 16 + hexVal c) 0

/-- The fixed TLD set of `generate_domain_list`. -/
def tldsList : List String := [".com", ".net", ".org", ".info", ".biz"]

/-- One domain of `DGAKeyDerivation.generate_domain_list`: the body of the
`for i in range(count)` loop. -/
def generate_domain (H : HashLib) (seed : String) (dateStr : String) (i : Nat) : String :=
  let hashHex := hexdigest (H.sha256 (utf8Encode (seed ++ ":" ++ dateStr ++ ":" ++ toString i)))
  let domainLength := 12 + intOfHex (hashHex.take 1) % 8
  let domainName := (List.range domainLength).map
    (fun k => Char.ofNat (97 + intOfHex ((hashHex.drop (2 * k)).take 2) % 26))
  let tld := tldsList.getD (intOfHex (hashHex.drop (hashHex.length - 1)) % 5) ""
  String.mk (domainName.take domainLength) ++ tld

/-- `DGAKeyDerivation.generate_domain_list(date, count)`, with the date as
epoch seconds. -/
def generate_domain_list (H : HashLib) (seed : String) (date : Nat) (count : Nat) :
    List String :=
  (List.range count).map (generate_domain H seed (formatDateCompact date))

/-! ## `XORCipher` (crypto_utils.py, lines 155-216) -/

namespace XORCipher

/-- `XORCipher._xor_bytes(data)`:
`bytes([data[i] ^ key[i % key_length] for i in range(len(data))])`. -/
def xorBytes (key data : List Nat) : List Nat :=
  (List.range data.length).map (fun i => data.getD i 0 ^^^ key.getD (i % key.length) 0)

/-- `XORCipher.encrypt(plaintext)`: UTF-8 encode, XOR, base64. -/
def encrypt (key : List Nat) (plaintext : String) : String :=
  b64encode (xorBytes key (utf8Encode plaintext))

/-- `XORCipher.decrypt(ciphertext)`: base64 decode, XOR, UTF-8 decode;
`none` models the raised `ValueError` (both the base64 and the UTF-8 stage
raise inside the single `try`). -/
def decrypt (key : List Nat) (ciphertext : String) : Option String :=
  match b64decodeStr ciphertext with
  | none => none
  | some bytes => utf8Decode (xorBytes key bytes)

end XORCipher

/-! ## `CallbackCrypto` (crypto_utils.py, lines 219-326) -/

namespace CallbackCrypto

/-- `CallbackCrypto.encrypt_callback(data)`: XOR-encrypt under the current
key of the current rotation window (`datetime.utcnow()` supplied as `now`). -/
def encrypt_callback (H : HashLib) (seed : String) (rotationHours : Nat)
    (algorithm : String) (now : Nat) (data : String) : String :=
  let key := generate_rotating_key H seed now rotationHours algorithm 32
  XORCipher.encrypt key data

/-- `CallbackCrypto.decrypt_callback(encrypted_data, try_previous)`: try the
key of the current rotation window; on failure, optionally recompute the key one
rotation period back and retry once; `none` models the final `return None`. -/
def decrypt_callback (H : HashLib) (seed : String) (rotationHours : Nat)
    (algorithm : String) (now : Nat) (encryptedData : String) (tryPrevious : Bool) :
    Option String :=
  let currentKey := generate_rotating_key H seed now rotationHours algorithm 32
  match XORCipher.decrypt currentKey encryptedData with
  | some pt => some pt
  | none =>
    if tryPrevious then
      let previousDate := now - rotationHours * 3600
      let periodStartHours := previousDate / 3600 / rotationHours * rotationHours
      let previousKey := generate_key_for_date H seed (periodStartHours * 3600) algorithm 32
      XORCipher.decrypt previousKey encryptedData
    else none

end CallbackCrypto

/-! ## `verify_password` and `audit_log` (app_secure.py, lines 194-299)

The sqlite row of the `users` table for one identity is modelled as a
record; `verify_password` becomes a state-passing function returning the
`(bool, user_id)` pair the Python function returns together with the updated
row.  `bcrypt.checkpw` and `sha512_hash` are external and abstracted into an
environment.  `locked_until` is stored as an ISO timestamp string in the
database and compared with `datetime.utcnow()`; since ISO rendering is a
strictly monotone encoding of the timestamp, it is modelled directly as epoch
seconds. -/

structure UserRow where
  userId : Nat
  passwordHash : String
  salt : String
  failedAttempts : Nat
  lockedUntil : Option Nat
  lastLogin : Option Nat
deriving DecidableEq, Repr

structure AuthEnv where
  sha512Hash : String → String
  bcryptCheck : String → String → Bool

/-- The tail of `verify_password` after the lock check: hash the attempt,
compare, and update the row.  `staleFailed` is the *local Python variable*
`failed_attempts`, which was read from the row before any unlock reset and
is the value the failure branch increments. -/
def verifyCore (env : AuthEnv) (row : UserRow) (staleFailed : Nat) (password : String)
    (now : Nat) : (Bool × Option Nat) × UserRow :=
  let attempt := env.sha512Hash (password ++ row.salt)
  if env.bcryptCheck attempt row.passwordHash then
    ((true, some row.userId), { row with failedAttempts := 0, lastLogin := some now })
  else
    let fa := staleFailed + 1
    if 5 ≤ fa then
      ((false, none), { row with failedAttempts := fa, lockedUntil := some (now + 1800) })
    else
      ((false, none), { row with failedAttempts := fa })

/-- `verify_password(username, password)`: `row?` is the fetched `users` row
(`none` when the username does not exist), `now` is `datetime.utcnow()`.
Returns the `(bool, user_id)` result and the row as left in the database. -/
def verify_password (env : AuthEnv) (row? : Option UserRow) (password : String)
    (now : Nat) : (Bool × Option Nat) × Option UserRow :=
  match row? with
  | none => ((false, none), none)
  | some row =>
    match row.lockedUntil with
    | some lockedUntil =>
      if now < lockedUntil then ((false, none), some row)
      else
        let unlocked := { row with lockedUntil := none, failedAttempts := 0 }
        let r := verifyCore env unlocked row.failedAttempts password now
        (r.1, some r.2)
    | none =>
      let r := verifyCore env row row.failedAttempts password now
      (r.1, some r.2)

/-- An `audit_log` table entry. -/
structure AuditEntry where
  timestamp : String
  userId : Option Nat
  action : String
  ipAddress : String
  details : Option String
  integrityHash : String
deriving DecidableEq, Repr

/-- Python string interpolation of an optional value, as in the f-string of
`audit_log` (`None` renders as `"None"`). -/
def optNatStr : Option Nat → String
  | none => "None"
  | some n => toString n

/-- Same for the optional free-text detail field. -/
def optStr : Option String → String
  | none => "None"
  | some s => s

/-- `audit_log(action, user_id, details)`.  The backing store (sqlite
connect / INSERT / commit) is modelled as a fallible `store` function; the
Python body contains no exception handler, so the result of the store is
returned unchanged and a store failure propagates to the caller. -/
def audit_log (hash384 : String → String) (store : AuditEntry → Except String Unit)
    (timestamp ipAddress action : String) (userId : Option Nat)
    (details : Option String) : Except String Unit :=
  let auditData :=
    timestamp ++ "|" ++ optNatStr userId ++ "|" ++ action ++ "|" ++ ipAddress ++ "|" ++
      optStr details
  let integrityHash := hash384 auditData
  store { timestamp := timestamp, userId := userId, action := action,
          ipAddress := ipAddress, details := details, integrityHash := integrityHash }

/-! ## Specification-side definitions

These definitions follow the words of the specification, to be compared
with the embedded code. -/

/-- The key-extension process exactly as the specification words it: the
n-th stage of repeatedly appending a digest of (key material so far + the
original seed-and-date input). -/
def specExtendChain (sha : List Nat → List Nat) (input start : List Nat) : Nat → List Nat
  | 0 => start
  | n + 1 =>
    let km := specExtendChain sha input start n
    km ++ sha (km ++ input)

/-- The window start computed by `generate_rotating_key` and by the
fallback branch of `decrypt_callback`:
`(hours_since_epoch // rotation_hours) * rotation_hours * 3600`. -/
def windowStart (rotationHours t : Nat) : Nat :=
  t / 3600 / rotationHours * rotationHours * 3600

/-- One generated domain as the (amended) claim words it, directly over the
digest bytes: length `12 + (high nibble of the leading byte) mod 8`, letters
`97 + byte mod 26`, and the TLD selected by the low four bits of the final
digest byte modulo 5. -/
def byteDomain (H : HashLib) (seed dateStr : String) (i : Nat) : String :=
  let digest := H.sha256 (utf8Encode (seed ++ ":" ++ dateStr ++ ":" ++ toString i))
  let len := 12 + digest.headD 0 / 16 % 8
  String.mk ((List.range len).map (fun k => Char.ofNat (97 + digest.getD k 0 % 26))) ++
    tldsList.getD (digest.getD (digest.length - 1) 0 % 16 % 5) ""

/-- One generated domain exactly as the original claim words it, with the
TLD selected by the *final digest byte* modulo 5 (rather than by its low
four bits); refuted below. -/
def claimDomain (H : HashLib) (seed dateStr : String) (i : Nat) : String :=
  let digest := H.sha256 (utf8Encode (seed ++ ":" ++ dateStr ++ ":" ++ toString i))
  let len := 12 + digest.headD 0 / 16 % 8
  String.mk ((List.range len).map (fun k => Char.ofNat (97 + digest.getD k 0 % 26))) ++
    tldsList.getD (digest.getD (digest.length - 1) 0 % 5) ""

/-- A concrete authentication environment for closed evaluations: the salted
hash is modelled as concatenation and the bcrypt comparison as string
equality (only the match / mismatch outcome matters to the lockout logic). -/
def envC : AuthEnv := ⟨fun s => s, fun a b => a == b⟩

/-! ## General lemmas -/

theorem charToNat_ofNat (n : Nat) (h : n < 55296) : (Char.ofNat n).toNat = n := by
  have hv : n.isValidChar := Or.inl h
  simp [Char.ofNat, hv, Char.ofNatAux, Char.toNat, UInt32.toNat, BitVec.toNat_ofNatLt]

theorem charOfNat_toNat (c : Char) : Char.ofNat c.toNat = c := by
  have hv : c.val.toNat.isValidChar := c.valid
  apply Char.ext
  simp only [Char.ofNat, Char.toNat, dif_pos hv, Char.ofNatAux]
  apply UInt32.eq_of_toBitVec_eq
  apply BitVec.eq_of_toNat_eq
  simp [UInt32.toNat, BitVec.toNat_ofNatLt]

theorem xorBytes_length (key data : List Nat) :
    (XORCipher.xorBytes key data).length = data.length := by
  simp [XORCipher.xorBytes]

theorem xorBytes_getD (key data : List Nat) (i : Nat) (h : i < data.length) :
    (XORCipher.xorBytes key data).getD i 0 = data.getD i 0 ^^^ key.getD (i % key.length) 0 := by
  simp [XORCipher.xorBytes, List.getD_eq_getElem?_getD, List.getElem?_map,
    List.getElem?_range, h]

/-! ## C2: the XOR keystream transform is an involution -/

theorem xorBytes_involution (K P : List Nat) :
    XORCipher.xorBytes K (XORCipher.xorBytes K P) = P := by
  apply List.ext_getElem
  · simp [xorBytes_length]
  · intro i h1 h2
    have hlen : i < (XORCipher.xorBytes K P).length := by simpa [xorBytes_length] using h2
    calc (XORCipher.xorBytes K (XORCipher.xorBytes K P))[i] =
        (XORCipher.xorBytes K (XORCipher.xorBytes K P)).getD i 0 := by
          rw [List.getD_eq_getElem _ _ h1]
      _ = (P.getD i 0 ^^^ K.getD (i % K.length) 0) ^^^ K.getD (i % K.length) 0 := by
          rw [xorBytes_getD _ _ _ hlen, xorBytes_getD _ _ _ h2]
      _ = P.getD i 0 := by rw [Nat.xor_assoc, Nat.xor_self, Nat.xor_zero]
      _ = P[i] := List.getD_eq_getElem _ _ h2

/-- C2: for every byte string `P` and non-empty key `K`, applying the XOR
keystream transform of `XORCipher._xor_bytes` twice with the same key is
the identity. -/
theorem xor_transform_involution (P K : List Nat) (hK : K ≠ []) :
    XORCipher.xorBytes K (XORCipher.xorBytes K P) = P :=
  xorBytes_involution K P

/-- Witness for C2 at a concrete key and payload. -/
theorem xor_transform_involution_witness :
    ([1, 2] : List Nat) ≠ [] ∧
      XORCipher.xorBytes [1, 2] (XORCipher.xorBytes [1, 2] [5, 6, 7]) = [5, 6, 7] :=
  ⟨by decide, xor_transform_involution [5, 6, 7] [1, 2] (by decide)⟩

/-! ## C9: unknown algorithm names silently fall back to SHA-256 -/

/-- C9: for every algorithm name outside the supported set,
`generate_key_for_date` raises no error and returns exactly the SHA-256
derivation. -/
theorem unknown_algorithm_is_sha256 (H : HashLib) (seed : String) (date : Nat)
    (algorithm : String) (L : Nat) (h1 : algorithm ≠ "sha256")
    (h2 : algorithm ≠ "sha512") (h3 : algorithm ≠ "md5") :
    generate_key_for_date H seed date algorithm L =
      generate_key_for_date H seed date "sha256" L := by
  unfold generate_key_for_date dgaInitialDigest
  simp [h1, h2, h3]

/-- Witness for C9 at a concrete unsupported algorithm name. -/
theorem unknown_algorithm_is_sha256_witness :
    generate_key_for_date theHashLib "seed" 1763035200 "blake2b" 32 =
      generate_key_for_date theHashLib "seed" 1763035200 "sha256" 32 :=
  unknown_algorithm_is_sha256 theHashLib "seed" 1763035200 "blake2b" 32
    (by decide) (by decide) (by decide)

/-! ## C10: the derived key depends only on the calendar date -/

/-- C10: the derived key depends on the window start time only through its
calendar date (`t / 86400`), so for a rotation period below 24 hours all
windows starting within one UTC day share one key. -/
theorem key_depends_only_on_calendar_date (H : HashLib) (seed : String)
    (algorithm : String) (L r : Nat) (hr0 : 0 < r) (hr24 : r < 24) :
    (∀ t u, t / 86400 = u / 86400 →
        generate_key_for_date H seed t algorithm L =
          generate_key_for_date H seed u algorithm L) ∧
      ∀ t u, windowStart r t / 86400 = windowStart r u / 86400 →
        generate_rotating_key H seed t r algorithm L =
          generate_rotating_key H seed u r algorithm L := by
  have key_of_day : ∀ t u, t / 86400 = u / 86400 →
      generate_key_for_date H seed t algorithm L =
        generate_key_for_date H seed u algorithm L := by
    intro t u h
    unfold generate_key_for_date dgaHashInput formatDate
    rw [h]
  exact ⟨key_of_day, fun t u h => key_of_day _ _ h⟩

/-- Witness for C10: with a one-hour rotation period, the windows of 12:00
and 13:00 UTC on 2025-11-13 are distinct but share the key. -/
theorem key_depends_only_on_calendar_date_witness :
    windowStart 1 1763035200 / 86400 = windowStart 1 1763038800 / 86400 ∧
      generate_rotating_key theHashLib "insovietrussiawehackyou" 1763035200 1 "sha256" 32 =
        generate_rotating_key theHashLib "insovietrussiawehackyou" 1763038800 1 "sha256" 32 :=
  ⟨by decide,
    (key_depends_only_on_calendar_date theHashLib "insovietrussiawehackyou" "sha256" 32 1
      (by decide) (by decide)).2 1763035200 1763038800 (by decide)⟩

/-! ## C7: the failure modes of `XORCipher.decrypt` -/

/-- C7 (amended): `decrypt` fails exactly when the base64 decode fails or
when the XOR output is not valid UTF-8; a base64 failure occurs before the
XOR is attempted, but the decode is *not* the only structural check. -/
theorem decrypt_failure_modes (key : List Nat) (s : String) :
    XORCipher.decrypt key s = none ↔
      b64decodeStr s = none ∨
        ∃ bytes, b64decodeStr s = some bytes ∧
          utf8Decode (XORCipher.xorBytes key bytes) = none := by
  unfold XORCipher.decrypt
  cases h : b64decodeStr s with
  | none => simp
  | some bytes => simp

/-- Counterexample for C7 as stated: `"/w=="` is well-formed base64, yet
`decrypt` fails on it (the XOR output `[254]` is not valid UTF-8), so
decoding is not the only structural check and success of the decode does
not imply a plaintext result. -/
theorem decrypt_fails_on_wellformed_b64 :
    b64decodeStr "/w==" = some [255] ∧ XORCipher.decrypt [1] "/w==" = none := by
  exact ⟨by decide, by decide⟩

/-! ## C6: `audit_log` and store failures -/

/-- C6 (amended): `audit_log` contains no exception handler; it returns the
result of the backing store unchanged, so a store failure propagates to the
caller of `record` instead of being swallowed. -/
theorem audit_log_is_store_result (hash384 : String → String)
    (store : AuditEntry → Except String Unit) (timestamp ipAddress action : String)
    (userId : Option Nat) (details : Option String) :
    audit_log hash384 store timestamp ipAddress action userId details =
      store { timestamp := timestamp, userId := userId, action := action,
              ipAddress := ipAddress, details := details,
              integrityHash := hash384 (timestamp ++ "|" ++ optNatStr userId ++ "|" ++
                action ++ "|" ++ ipAddress ++ "|" ++ optStr details) } := rfl

/-- Counterexample for C6 as stated: with a failing backing store the call
to `audit_log` produces an error, not a silent success, so the failure is
visible to the caller and blocks the primary operation. -/
theorem audit_log_fails_visibly :
    audit_log (fun s => s) (fun _ => Except.error "database is locked")
        "2025-11-18T00:00:00" "10.0.0.1" "LOGIN_FAILED" none none =
      Except.error "database is locked" ∧
      Except.error "database is locked" ≠ (Except.ok () : Except String Unit) :=
  ⟨rfl, fun h => Except.noConfusion h⟩

/-! ## C5: locked and rejected outcomes at the interface -/

/-- C5 (amended): `verify_password` has only two interface outcomes.  An
attempt on a locked identity before `locked_until` returns `(false, none)`,
the same value a credential mismatch on an unlocked identity returns, so
the two outcomes are not distinguishable at the interface. -/
theorem locked_conflated_with_rejected (env : AuthEnv) (row : UserRow)
    (password : String) (now lockedUntil : Nat)
    (hlock : row.lockedUntil = some lockedUntil) (hnow : now < lockedUntil)
    (row2 : UserRow) (password2 : String) (now2 : Nat)
    (h2 : row2.lockedUntil = none)
    (hmis : env.bcryptCheck (env.sha512Hash (password2 ++ row2.salt)) row2.passwordHash
      = false) :
    (verify_password env (some row) password now).1 = (false, none) ∧
      (verify_password env (some row2) password2 now2).1 = (false, none) := by
  constructor
  · simp [verify_password, hlock, hnow]
  · unfold verify_password verifyCore
    simp only [h2, hmis, Bool.false_eq_true, if_false]
    split <;> rfl

/-- Witness for C5 (amended) at concrete rows. -/
theorem locked_conflated_with_rejected_witness :
    (verify_password envC (some ⟨1, "goods", "s", 5, some 5000, none⟩) "good" 100).1
        = (false, none) ∧
      (verify_password envC (some ⟨2, "goods", "s", 0, none, none⟩) "bad" 100).1
        = (false, none) :=
  locked_conflated_with_rejected envC ⟨1, "goods", "s", 5, some 5000, none⟩ "good" 100 5000
    rfl (by decide) ⟨2, "goods", "s", 0, none, none⟩ "bad" 100 rfl (by decide)

/-- Counterexample for C5 as stated: an attempt on a locked identity
carrying the *correct* credential produces, at the interface, exactly the
same value as a credential mismatch on an unlocked identity, so the two
outcomes are not distinct. -/
theorem locked_outcome_equals_rejected_outcome :
    envC.bcryptCheck (envC.sha512Hash ("good" ++ "s")) "goods" = true ∧
      (100 < 5000) ∧
      (verify_password envC (some ⟨1, "goods", "s", 5, some 5000, none⟩) "good" 100).1 =
        (verify_password envC (some ⟨2, "goods", "s", 0, none, none⟩) "bad" 100).1 := by
  exact ⟨by decide, by decide, by decide⟩

/-! ## C4: the lockout state machine, and the stale-counter slip -/

/-- C4: evaluation of `verify_password` at the failing input.  The identity
has five recorded failures and its lock expired at time 1000; at time 2000
an attempt with a wrong credential is made.  The claim (and the unlock
`UPDATE` the code itself performs) requires the counter to reset to 0 on
this first attempt after expiry, after which one failure would leave it at
1 with the account active; instead the code increments the *stale* local
counter read before the unlock, stores 6, and immediately re-locks the
account until time 3800. -/
theorem stale_counter_relocks_after_expiry :
    verify_password envC (some ⟨1, "goods", "s", 5, some 1000, none⟩) "bad" 2000 =
      ((false, none), some ⟨1, "goods", "s", 6, some 3800, none⟩) := by decide

/-! ## Digest length and byte-bound lemmas for the concrete hash library -/

theorem round_length (s : List Nat) (k w : Nat) : (SHA256.round s k w).length = s.length := by
  unfold SHA256.round
  split <;> simp

theorem foldl_round_length (l : List (Nat × Nat)) (s : List Nat) :
    (l.foldl (fun s kw => SHA256.round s kw.1 kw.2) s).length = s.length := by
  induction l generalizing s with
  | nil => rfl
  | cons a t ih => rw [List.foldl_cons, ih, round_length]

theorem processBlock_length (h block : List Nat) (hh : h.length = 8) :
    (SHA256.processBlock h block).length = 8 := by
  unfold SHA256.processBlock
  rw [List.length_zipWith, foldl_round_length, hh]
  omega

theorem foldl_processBlock_length (bs : List (List Nat)) (st : List Nat)
    (h : st.length = 8) : (bs.foldl SHA256.processBlock st).length = 8 := by
  induction bs generalizing st with
  | nil => exact h
  | cons b t ih => exact ih _ (processBlock_length _ _ h)

theorem flatten_map_be32_length (st : List Nat) :
    ((st.map SHA256.be32).flatten).length = 4 * st.length := by
  induction st with
  | nil => rfl
  | cons a t ih =>
    simp only [List.map_cons, List.flatten_cons, List.length_append, ih, SHA256.be32,
      List.length_cons, List.length_cons]
    simp
    omega

theorem sha256impl_length (m : List Nat) : (sha256impl m).length = 32 := by
  unfold sha256impl
  rw [flatten_map_be32_length, foldl_processBlock_length _ _ (by rfl)]

theorem sha512Model_length (m : List Nat) : (sha512Model m).length = 64 := by
  simp [sha512Model, sha256impl_length]

theorem md5Model_length (m : List Nat) : (md5Model m).length = 16 := by
  simp [md5Model, sha256impl_length]

theorem be32_lt (n : Nat) : ∀ b ∈ SHA256.be32 n, b < 256 := by
  intro b hb
  simp [SHA256.be32] at hb
  rcases hb with h | h | h | h <;> omega

theorem sha256impl_lt (m : List Nat) : ∀ b ∈ sha256impl m, b < 256 := by
  intro b hb
  unfold sha256impl at hb
  simp only [List.mem_flatten, List.mem_map] at hb
  obtain ⟨l, ⟨x, _, rfl⟩, hbl⟩ := hb
  exact be32_lt x b hbl

theorem sha512Model_lt (m : List Nat) : ∀ b ∈ sha512Model m, b < 256 := by
  intro b hb
  rcases List.mem_append.1 hb with h | h
  exacts [sha256impl_lt _ b h, sha256impl_lt _ b h]

theorem md5Model_lt (m : List Nat) : ∀ b ∈ md5Model m, b < 256 := by
  intro b hb
  exact sha256impl_lt m b (List.take_subset _ _ hb)

/-! ## The key-extension loop agrees with the worded extension process -/

theorem specExtendChain_shift (sha : List Nat → List Nat) (input km : List Nat) (n : Nat) :
    specExtendChain sha input (km ++ sha (km ++ input)) n =
      specExtendChain sha input km (n + 1) := by
  induction n with
  | zero => rfl
  | succ k ih => simp only [specExtendChain, ih]

theorem extendKeyMaterial_chain (sha : List Nat → List Nat) (input : List Nat)
    (hpos : ∀ m, 0 < (sha m).length) (L : Nat) :
    ∀ fuel km, L ≤ km.length + fuel →
      ∃ n, extendKeyMaterial sha input L fuel km = specExtendChain sha input km n ∧
        L ≤ (specExtendChain sha input km n).length ∧
        ∀ m, m < n → (specExtendChain sha input km m).length < L := by
  intro fuel
  induction fuel with
  | zero =>
    intro km h
    exact ⟨0, rfl, by simpa [specExtendChain] using h,
      fun m hm => absurd hm (Nat.not_lt_zero m)⟩
  | succ f ih =>
    intro km h
    by_cases hlen : km.length < L
    · obtain ⟨n, he, hge, hmin⟩ := ih (km ++ sha (km ++ input))
        (by have := hpos (km ++ input); simp only [List.length_append]; omega)
      refine ⟨n + 1, ?_, ?_, ?_⟩
      · simp only [extendKeyMaterial, if_pos hlen]
        rw [he, specExtendChain_shift]
      · rw [← specExtendChain_shift]; exact hge
      · intro m hm
        cases m with
        | zero => simpa [specExtendChain] using hlen
        | succ k =>
          rw [← specExtendChain_shift]
          exact hmin k (by omega)
    · exact ⟨0, by simp only [extendKeyMaterial, if_neg hlen, specExtendChain],
        by simpa [specExtendChain] using Nat.le_of_not_lt hlen,
        fun m hm => absurd hm (Nat.not_lt_zero m)⟩

theorem generate_key_length (H : HashLib) (hpos : ∀ m, 0 < (H.sha256 m).length)
    (seed : String) (date : Nat) (algorithm : String) (L : Nat) :
    (generate_key_for_date H seed date algorithm L).length = L := by
  obtain ⟨n, he, hge, -⟩ := extendKeyMaterial_chain H.sha256 (dgaHashInput seed date)
    hpos L L (dgaInitialDigest H algorithm (dgaHashInput seed date)) (by omega)
  simp only [generate_key_for_date]
  rw [he, List.length_take]
  omega

theorem extendKeyMaterial_lt (sha : List Nat → List Nat)
    (hsha : ∀ m b, b ∈ sha m → b < 256) (input : List Nat) (L : Nat) :
    ∀ fuel km, (∀ b ∈ km, b < 256) →
      ∀ b ∈ extendKeyMaterial sha input L fuel km, b < 256 := by
  intro fuel
  induction fuel with
  | zero => intro km hkm; simpa [extendKeyMaterial] using hkm
  | succ f ih =>
    intro km hkm b hb
    simp only [extendKeyMaterial] at hb
    by_cases hlen : km.length < L
    · rw [if_pos hlen] at hb
      refine ih _ (fun x hx => ?_) b hb
      rcases List.mem_append.1 hx with h | h
      exacts [hkm x h, hsha _ x h]
    · rw [if_neg hlen] at hb
      exact hkm b hb

theorem generate_key_lt (H : HashLib) (h1 : ∀ m b, b ∈ H.sha256 m → b < 256)
    (h2 : ∀ m b, b ∈ H.sha512 m → b < 256) (h3 : ∀ m b, b ∈ H.md5 m → b < 256)
    (seed : String) (date : Nat) (algorithm : String) (L : Nat) :
    ∀ b ∈ generate_key_for_date H seed date algorithm L, b < 256 := by
  intro b hb
  simp only [generate_key_for_date] at hb
  refine extendKeyMaterial_lt H.sha256 h1 (dgaHashInput seed date) L L
    (dgaInitialDigest H algorithm (dgaHashInput seed date)) ?_ b
    (List.take_subset _ _ hb)
  intro x hx
  unfold dgaInitialDigest at hx
  split_ifs at hx
  exacts [h1 _ x hx, h2 _ x hx, h3 _ x hx, h1 _ x hx]

/-! ## C1: length, determinism and the extension process of key derivation -/

/-- C1: for every seed, window start time, supported algorithm name and key
length at least 1, `generate_key_for_date` returns exactly `key_length`
bytes; two calls with identical inputs return identical bytes (the
embedding is a pure function, so determinism is definitional); and whenever
the selected digest is shorter than `key_length`, the result is the stage
of the worded extension process that first reaches `key_length` bytes,
truncated to exactly `key_length`. -/
theorem generate_key_properties (H : HashLib)
    (h256 : ∀ m, (H.sha256 m).length = 32) (h512 : ∀ m, (H.sha512 m).length = 64)
    (hmd5 : ∀ m, (H.md5 m).length = 16) (seed : String) (date : Nat) (algorithm : String)
    (halg : algorithm = "sha256" ∨ algorithm = "sha512" ∨ algorithm = "md5")
    (L : Nat) (hL : 1 ≤ L) :
    (generate_key_for_date H seed date algorithm L).length = L ∧
      generate_key_for_date H seed date algorithm L =
        generate_key_for_date H seed date algorithm L ∧
      ((dgaInitialDigest H algorithm (dgaHashInput seed date)).length < L →
        ∃ n,
          L ≤ (specExtendChain H.sha256 (dgaHashInput seed date)
                (dgaInitialDigest H algorithm (dgaHashInput seed date)) n).length ∧
          (∀ m, m < n → (specExtendChain H.sha256 (dgaHashInput seed date)
                (dgaInitialDigest H algorithm (dgaHashInput seed date)) m).length < L) ∧
          generate_key_for_date H seed date algorithm L =
            (specExtendChain H.sha256 (dgaHashInput seed date)
              (dgaInitialDigest H algorithm (dgaHashInput seed date)) n).take L) := by
  have hpos : ∀ m, 0 < (H.sha256 m).length := fun m => by rw [h256]; omega
  obtain ⟨n, he, hge, hmin⟩ := extendKeyMaterial_chain H.sha256 (dgaHashInput seed date)
    hpos L L (dgaInitialDigest H algorithm (dgaHashInput seed date)) (by omega)
  refine ⟨generate_key_length H hpos seed date algorithm L, rfl, fun hshort => ?_⟩
  refine ⟨n, hge, hmin, ?_⟩
  simp only [generate_key_for_date]
  rw [he]

/-- Witness for C1 at a concrete seed, date and over-length key request
(`key_length` 80 exercises the extension loop on a 32-byte digest). -/
theorem generate_key_properties_witness :
    (generate_key_for_date theHashLib "s" 1763035200 "sha256" 80).length = 80 ∧
      generate_key_for_date theHashLib "s" 1763035200 "sha256" 80 =
        generate_key_for_date theHashLib "s" 1763035200 "sha256" 80 ∧
      ((dgaInitialDigest theHashLib "sha256" (dgaHashInput "s" 1763035200)).length < 80 →
        ∃ n,
          80 ≤ (specExtendChain theHashLib.sha256 (dgaHashInput "s" 1763035200)
                (dgaInitialDigest theHashLib "sha256" (dgaHashInput "s" 1763035200)) n).length ∧
          (∀ m, m < n → (specExtendChain theHashLib.sha256 (dgaHashInput "s" 1763035200)
                (dgaInitialDigest theHashLib "sha256" (dgaHashInput "s" 1763035200)) m).length
                  < 80) ∧
          generate_key_for_date theHashLib "s" 1763035200 "sha256" 80 =
            (specExtendChain theHashLib.sha256 (dgaHashInput "s" 1763035200)
              (dgaInitialDigest theHashLib "sha256" (dgaHashInput "s" 1763035200)) n).take 80) :=
  generate_key_properties theHashLib sha256impl_length sha512Model_length md5Model_length
    "s" 1763035200 "sha256" (Or.inl rfl) 80 (by omega)

/-! ## Hex-string lemmas: the hexdigest pipeline equals byte arithmetic -/

theorem hexVal_hexChar (v : Nat) (h : v < 16) : hexVal (hexChar v) = v := by
  unfold hexChar
  by_cases h10 : v < 10
  · rw [if_pos h10]
    unfold hexVal
    rw [charToNat_ofNat _ (by omega), if_pos (by omega)]
    omega
  · rw [if_neg h10]
    unfold hexVal
    rw [charToNat_ofNat _ (by omega), if_neg (by omega)]
    omega

theorem hexdigest_length (d : List Nat) : (hexdigest d).length = 2 * d.length := by
  induction d with
  | nil => rfl
  | cons b rest ih =>
    simp only [hexdigest, List.flatMap_cons] at *
    simp only [List.length_append, List.length_cons, List.length_nil, ih]
    omega

theorem hexdigest_drop (d : List Nat) : ∀ k, k < d.length →
    (hexdigest d).drop (2 * k) =
      hexChar (d.getD k 0 / 16) :: hexChar (d.getD k 0 % 16) :: hexdigest (d.drop (k + 1)) := by
  induction d with
  | nil => intro k hk; simp at hk
  | cons b rest ih =>
    intro k hk
    cases k with
    | zero => simp [hexdigest]
    | succ k2 =>
      simp only [hexdigest, List.flatMap_cons, List.cons_append, List.nil_append]
      rw [show 2 * (k2 + 1) = 2 * k2 + 1 + 1 from by ring, List.drop_succ_cons,
        List.drop_succ_cons]
      have hk2 : k2 < rest.length := by simpa using Nat.lt_of_succ_lt_succ hk
      simpa [hexdigest] using ih k2 hk2

theorem hexdigest_last (d : List Nat) (hne : d ≠ []) :
    (hexdigest d).drop ((hexdigest d).length - 1) =
      [hexChar (d.getD (d.length - 1) 0 % 16)] := by
  have hlen : 0 < d.length := List.length_pos.2 hne
  have hd := hexdigest_drop d (d.length - 1) (by omega)
  have hdrop : d.drop (d.length - 1 + 1) = [] := by
    rw [show d.length - 1 + 1 = d.length from by omega]
    exact List.drop_length d
  rw [hexdigest_length, show 2 * d.length - 1 = 2 * (d.length - 1) + 1 from by omega,
    ← List.drop_drop, hd, hdrop]
  simp [hexdigest]

theorem intOfHex_pair (h l2 : Nat) (hh : h < 16) (hl : l2 < 16) :
    intOfHex [hexChar h, hexChar l2] = h * 16 + l2 := by
  simp [intOfHex, hexVal_hexChar _ hh, hexVal_hexChar _ hl]

theorem intOfHex_single (v : Nat) (hv : v < 16) : intOfHex [hexChar v] = v := by
  simp [intOfHex, hexVal_hexChar _ hv]

theorem hexdigest_byte (d : List Nat) (k : Nat) (hk : k < d.length)
    (hb : ∀ b ∈ d, b < 256) :
    intOfHex (((hexdigest d).drop (2 * k)).take 2) = d.getD k 0 := by
  rw [hexdigest_drop d k hk]
  have hbk : d.getD k 0 < 256 := by
    rw [List.getD_eq_getElem _ _ hk]
    exact hb _ (List.getElem_mem hk)
  rw [show (hexChar (d.getD k 0 / 16) :: hexChar (d.getD k 0 % 16) ::
      hexdigest (d.drop (k + 1))).take 2 =
    [hexChar (d.getD k 0 / 16), hexChar (d.getD k 0 % 16)] from rfl]
  rw [intOfHex_pair _ _ (by omega) (by omega)]
  omega

theorem hexdigest_head (d : List Nat) (hne : d ≠ []) (hb : ∀ b ∈ d, b < 256) :
    intOfHex ((hexdigest d).take 1) = d.getD 0 0 / 16 := by
  cases d with
  | nil => simp at hne
  | cons b rest =>
    have hblt : b < 256 := hb b (by simp)
    simp only [hexdigest, List.flatMap_cons, List.cons_append, List.nil_append]
    rw [show (hexChar (b / 16) :: hexChar (b % 16) ::
        rest.flatMap fun x => [hexChar (x / 16), hexChar (x % 16)]).take 1 =
      [hexChar (b / 16)] from rfl]
    rw [intOfHex_single _ (show b / 16 < 16 by omega)]
    rfl

/-! ## C8: the domain generation algorithm over the digest bytes -/

theorem generate_domain_eq_byteDomain (H : HashLib)
    (hlen : ∀ m, (H.sha256 m).length = 32) (hlt : ∀ m b, b ∈ H.sha256 m → b < 256)
    (seed dateStr : String) (i : Nat) :
    generate_domain H seed dateStr i = byteDomain H seed dateStr i := by
  simp only [generate_domain, byteDomain]
  set d := H.sha256 (utf8Encode (seed ++ ":" ++ dateStr ++ ":" ++ toString i)) with hd
  have hdlen : d.length = 32 := hlen _
  have hdne : d ≠ [] := by
    intro h
    rw [h] at hdlen
    simp at hdlen
  have hdb : ∀ b ∈ d, b < 256 := fun b hb => hlt _ b hb
  have hhead : d.headD 0 = d.getD 0 0 := by cases d <;> rfl
  rw [hexdigest_head d hdne hdb, hexdigest_last d hdne, hhead]
  have hbl : d.getD (d.length - 1) 0 % 16 < 16 := by omega
  rw [intOfHex_single _ hbl]
  have hmap : (List.range (12 + d.getD 0 0 / 16 % 8)).map
        (fun k => Char.ofNat (97 + intOfHex (((hexdigest d).drop (2 * k)).take 2) % 26)) =
      (List.range (12 + d.getD 0 0 / 16 % 8)).map
        (fun k => Char.ofNat (97 + d.getD k 0 % 26)) := by
    apply List.map_congr_left
    intro k hk
    have hk32 : k < d.length := by
      rw [hdlen]
      have := List.mem_range.1 hk
      omega
    rw [hexdigest_byte d k hk32 hdb]
  rw [hmap]
  have htake : ((List.range (12 + d.getD 0 0 / 16 % 8)).map
        (fun k => Char.ofNat (97 + d.getD k 0 % 26))).take (12 + d.getD 0 0 / 16 % 8) =
      (List.range (12 + d.getD 0 0 / 16 % 8)).map (fun k => Char.ofNat (97 + d.getD k 0 % 26)) :=
    List.take_of_length_le (by simp)
  rw [htake]

/-- C8 (amended): `generate_domain_list` returns exactly `count` strings,
deterministically (the embedding is pure, so determinism is definitional);
each element is the name-plus-TLD computed from the digest bytes of
`seed + ":" + compact-date + ":" + index` with length `12 + (high nibble of
the leading byte) mod 8`, letters `byte mod 26`, and the TLD selected by
the low four bits of the final digest byte modulo 5; every element splits
into a lowercase name of 12 to 19 letters and a TLD from the fixed set. -/
theorem domain_list_properties (H : HashLib)
    (hlen : ∀ m, (H.sha256 m).length = 32) (hlt : ∀ m b, b ∈ H.sha256 m → b < 256)
    (seed : String) (date : Nat) (count : Nat) :
    (generate_domain_list H seed date count).length = count ∧
      generate_domain_list H seed date count = generate_domain_list H seed date count ∧
      (∀ i, i < count → (generate_domain_list H seed date count).getD i "" =
        byteDomain H seed (formatDateCompact date) i) ∧
      ∀ i, i < count → ∃ name : List Char, ∃ tld : String,
        tld ∈ tldsList ∧ 12 ≤ name.length ∧ name.length ≤ 19 ∧
        (∀ c ∈ name, 97 ≤ c.toNat ∧ c.toNat ≤ 122) ∧
        (generate_domain_list H seed date count).getD i "" = String.mk name ++ tld := by
  have helem : ∀ i, i < count → (generate_domain_list H seed date count).getD i "" =
      byteDomain H seed (formatDateCompact date) i := by
    intro i hi
    simp only [generate_domain_list]
    rw [List.getD_eq_getElem _ _ (by simpa using hi)]
    simp only [List.getElem_map, List.getElem_range]
    exact generate_domain_eq_byteDomain H hlen hlt seed _ i
  refine ⟨by simp [generate_domain_list], rfl, helem, fun i hi => ?_⟩
  rw [helem i hi]
  simp only [byteDomain]
  set d := H.sha256 (utf8Encode (seed ++ ":" ++ formatDateCompact date ++ ":" ++ toString i))
    with hd
  have hnl : ((List.range (12 + d.headD 0 / 16 % 8)).map
      (fun k => Char.ofNat (97 + d.getD k 0 % 26))).length = 12 + d.headD 0 / 16 % 8 := by
    simp
  refine ⟨(List.range (12 + d.headD 0 / 16 % 8)).map (fun k => Char.ofNat (97 + d.getD k 0 % 26)),
    tldsList.getD (d.getD (d.length - 1) 0 % 16 % 5) "", ?_, ?_, ?_, ?_, rfl⟩
  · have h5 : d.getD (d.length - 1) 0 % 16 % 5 < tldsList.length := by
      have h5l : tldsList.length = 5 := rfl
      rw [h5l]
      omega
    rw [List.getD_eq_getElem _ _ h5]
    exact List.getElem_mem h5
  · rw [hnl]
    omega
  · rw [hnl]
    omega
  · intro c hc
    obtain ⟨k, -, rfl⟩ := List.mem_map.1 hc
    have : (97 + d.getD k 0 % 26) < 55296 := by omega
    rw [charToNat_ofNat _ this]
    omega

/-- Witness for C8 (amended) at the default seed, 2025-11-18, count 3. -/
theorem domain_list_properties_witness :
    (generate_domain_list theHashLib "insovietrussiawehackyou" 1763424000 3).length = 3 ∧
      generate_domain_list theHashLib "insovietrussiawehackyou" 1763424000 3 =
        generate_domain_list theHashLib "insovietrussiawehackyou" 1763424000 3 ∧
      (∀ i, i < 3 →
        (generate_domain_list theHashLib "insovietrussiawehackyou" 1763424000 3).getD i "" =
          byteDomain theHashLib "insovietrussiawehackyou" (formatDateCompact 1763424000) i) ∧
      ∀ i, i < 3 → ∃ name : List Char, ∃ tld : String,
        tld ∈ tldsList ∧ 12 ≤ name.length ∧ name.length ≤ 19 ∧
        (∀ c ∈ name, 97 ≤ c.toNat ∧ c.toNat ≤ 122) ∧
        (generate_domain_list theHashLib "insovietrussiawehackyou" 1763424000 3).getD i "" =
          String.mk name ++ tld :=
  domain_list_properties theHashLib sha256impl_length (fun m => sha256impl_lt m)
    "insovietrussiawehackyou" 1763424000 3

/-- Counterexample for C8 as stated: for the default seed on 2025-11-18, the
first generated domain ends in `.info` (final hex digit 13, 13 mod 5 = 3),
while selection by the final digest *byte* (45, 45 mod 5 = 0) would give
`.com`. -/
theorem domain_tld_not_final_byte :
    formatDateCompact 1763424000 = "20251118" ∧
      generate_domain_list theHashLib "insovietrussiawehackyou" 1763424000 1 =
        ["gnhvumilmzhncgzyhwl.info"] ∧
      claimDomain theHashLib "insovietrussiawehackyou" "20251118" 0 =
        "gnhvumilmzhncgzyhwl.com" ∧
      ("gnhvumilmzhncgzyhwl.info" : String) ≠ "gnhvumilmzhncgzyhwl.com" := by
  exact ⟨by decide, by decide, by decide, by decide⟩

/-! ## Base64 round trip: decoding inverts encoding on byte lists -/

theorem b64Char_toNat_lt (n : Nat) : (b64Char n).toNat < 128 := by
  unfold b64Char
  split_ifs <;> rw [charToNat_ofNat _ (by omega)] <;> omega

theorem b64Char_ne_pad (n : Nat) : (b64Char n).toNat ≠ 61 := by
  unfold b64Char
  split_ifs <;> rw [charToNat_ofNat _ (by omega)] <;> omega

theorem b64Val_b64Char (v : Nat) (hv : v < 64) : b64Val (b64Char v) = some v := by
  unfold b64Char
  by_cases h1 : v < 26
  · rw [if_pos h1]
    simp only [b64Val, charToNat_ofNat _ (show 65 + v < 55296 by omega)]
    rw [if_pos (by omega)]
    rw [show 65 + v - 65 = v from by omega]
  · rw [if_neg h1]
    by_cases h2 : v < 52
    · rw [if_pos h2]
      simp only [b64Val, charToNat_ofNat _ (show 97 + v - 26 < 55296 by omega)]
      rw [if_neg (by omega), if_pos (by omega)]
      rw [show 97 + v - 26 - 97 + 26 = v from by omega]
    · rw [if_neg h2]
      by_cases h3 : v < 62
      · rw [if_pos h3]
        simp only [b64Val, charToNat_ofNat _ (show 48 + v - 52 < 55296 by omega)]
        rw [if_neg (by omega), if_neg (by omega), if_pos (by omega)]
        rw [show 48 + v - 52 - 48 + 52 = v from by omega]
      · by_cases h4 : v = 62
        · rw [if_neg h3, if_pos h4, h4]
          decide
        · have h63 : v = 63 := by omega
          rw [if_neg h3, if_neg h4, h63]
          decide

theorem a2b64_data_step0 (c : Char) (v : Nat) (hc : b64Val c = some v)
    (hne : c.toNat ≠ 61) (cs : List Char) (l p : Nat) (acc : List Nat) :
    a2b64 (c :: cs) 0 l p acc = a2b64 cs 1 v 0 acc := by
  simp only [a2b64, if_neg hne, hc]

theorem a2b64_data_step1 (c : Char) (v : Nat) (hc : b64Val c = some v)
    (hne : c.toNat ≠ 61) (cs : List Char) (l p : Nat) (acc : List Nat) :
    a2b64 (c :: cs) 1 l p acc = a2b64 cs 2 (v % 16) 0 ((l * 4 + v / 16) :: acc) := by
  simp only [a2b64, if_neg hne, hc]

theorem a2b64_data_step2 (c : Char) (v : Nat) (hc : b64Val c = some v)
    (hne : c.toNat ≠ 61) (cs : List Char) (l p : Nat) (acc : List Nat) :
    a2b64 (c :: cs) 2 l p acc = a2b64 cs 3 (v % 4) 0 ((l * 16 + v / 4) :: acc) := by
  simp only [a2b64, if_neg hne, hc]

theorem a2b64_data_step3 (c : Char) (v : Nat) (hc : b64Val c = some v)
    (hne : c.toNat ≠ 61) (cs : List Char) (l p : Nat) (acc : List Nat) :
    a2b64 (c :: cs) 3 l p acc = a2b64 cs 0 0 0 ((l * 64 + v) :: acc) := by
  simp only [a2b64, if_neg hne, hc]

theorem a2b64_pad_cont (cs : List Char) (quadPos l pads : Nat) (acc : List Nat)
    (h : ¬(2 ≤ quadPos ∧ 4 ≤ quadPos + (pads + 1))) :
    a2b64 (Char.ofNat 61 :: cs) quadPos l pads acc = a2b64 cs quadPos l (pads + 1) acc := by
  have h61 : (Char.ofNat 61).toNat = 61 := charToNat_ofNat 61 (by omega)
  simp only [a2b64, h61, eq_self_iff_true, if_true, if_neg h]

theorem a2b64_pad_done (cs : List Char) (quadPos l pads : Nat) (acc : List Nat)
    (h : 2 ≤ quadPos ∧ 4 ≤ quadPos + (pads + 1)) :
    a2b64 (Char.ofNat 61 :: cs) quadPos l pads acc = some acc.reverse := by
  have h61 : (Char.ofNat 61).toNat = 61 := charToNat_ofNat 61 (by omega)
  simp only [a2b64, h61, eq_self_iff_true, if_true, if_pos h]

theorem a2b64_encode : ∀ l : List Nat, (∀ b ∈ l, b < 256) →
    ∀ acc : List Nat, a2b64 (b64EncodeBytes l) 0 0 0 acc = some (acc.reverse ++ l)
  | [], _, acc => by simp [b64EncodeBytes, a2b64]
  | [a], hb, acc => by
    have ha : a < 256 := hb a (by simp)
    simp only [b64EncodeBytes]
    rw [a2b64_data_step0 _ _ (b64Val_b64Char _ (by omega)) (b64Char_ne_pad _)]
    rw [a2b64_data_step1 _ _ (b64Val_b64Char _ (by omega)) (b64Char_ne_pad _)]
    rw [show a / 4 * 4 + a % 4 * 16 / 16 = a from by omega]
    rw [a2b64_pad_cont _ _ _ _ _ (by omega)]
    rw [a2b64_pad_done _ _ _ _ _ (by omega)]
    simp
  | [a, b], hb, acc => by
    have ha : a < 256 := hb a (by simp)
    have hbb : b < 256 := hb b (by simp)
    simp only [b64EncodeBytes]
    rw [a2b64_data_step0 _ _ (b64Val_b64Char _ (by omega)) (b64Char_ne_pad _)]
    rw [a2b64_data_step1 _ _ (b64Val_b64Char _ (by omega)) (b64Char_ne_pad _)]
    rw [a2b64_data_step2 _ _ (b64Val_b64Char _ (by omega)) (b64Char_ne_pad _)]
    rw [a2b64_pad_done _ _ _ _ _ (by omega)]
    rw [show a / 4 * 4 + (a % 4 * 16 + b / 16) / 16 = a from by omega]
    rw [show (a % 4 * 16 + b / 16) % 16 * 16 + b % 16 * 4 / 4 = b from by omega]
    simp
  | a :: b :: c :: rest, hb, acc => by
    have ha : a < 256 := hb a (by simp)
    have hbb : b < 256 := hb b (by simp)
    have hc : c < 256 := hb c (by simp)
    simp only [b64EncodeBytes]
    rw [a2b64_data_step0 _ _ (b64Val_b64Char _ (by omega)) (b64Char_ne_pad _)]
    rw [a2b64_data_step1 _ _ (b64Val_b64Char _ (by omega)) (b64Char_ne_pad _)]
    rw [a2b64_data_step2 _ _ (b64Val_b64Char _ (by omega)) (b64Char_ne_pad _)]
    rw [a2b64_data_step3 _ _ (b64Val_b64Char _ (by omega)) (b64Char_ne_pad _)]
    rw [show a / 4 * 4 + (a % 4 * 16 + b / 16) / 16 = a from by omega]
    rw [show (a % 4 * 16 + b / 16) % 16 * 16 + (b % 16 * 4 + c / 64) / 4 = b from by omega]
    rw [show (b % 16 * 4 + c / 64) % 4 * 64 + c % 64 = c from by omega]
    rw [a2b64_encode rest (fun x hx => hb x (by simp [hx])) (c :: b :: a :: acc)]
    simp

theorem b64EncodeBytes_ascii : ∀ l : List Nat, ∀ c ∈ b64EncodeBytes l, c.toNat < 128
  | [], c, hc => by simp [b64EncodeBytes] at hc
  | [a], c, hc => by
    simp only [b64EncodeBytes, List.mem_cons, List.not_mem_nil, or_false] at hc
    have h61 : (Char.ofNat 61).toNat = 61 := charToNat_ofNat 61 (by omega)
    rcases hc with rfl | rfl | rfl | rfl
    · exact b64Char_toNat_lt _
    · exact b64Char_toNat_lt _
    · omega
    · omega
  | [a, b], c, hc => by
    simp only [b64EncodeBytes, List.mem_cons, List.not_mem_nil, or_false] at hc
    have h61 : (Char.ofNat 61).toNat = 61 := charToNat_ofNat 61 (by omega)
    rcases hc with rfl | rfl | rfl | rfl
    · exact b64Char_toNat_lt _
    · exact b64Char_toNat_lt _
    · exact b64Char_toNat_lt _
    · omega
  | a :: b :: d :: rest, c, hc => by
    simp only [b64EncodeBytes, List.mem_cons] at hc
    rcases hc with rfl | rfl | rfl | rfl | h
    · exact b64Char_toNat_lt _
    · exact b64Char_toNat_lt _
    · exact b64Char_toNat_lt _
    · exact b64Char_toNat_lt _
    · exact b64EncodeBytes_ascii rest c h

theorem b64_roundtrip (l : List Nat) (hb : ∀ b ∈ l, b < 256) :
    b64decodeStr (b64encode l) = some l := by
  unfold b64decodeStr b64encode
  rw [if_pos ?hascii]
  case hascii =>
    rw [List.all_eq_true]
    intro c hc
    exact decide_eq_true (b64EncodeBytes_ascii l c hc)
  rw [a2b64_encode l hb []]
  simp

/-! ## UTF-8 round trip: strict decoding inverts encoding -/

theorem utf8Encode_lt (s : String) : ∀ b ∈ utf8Encode s, b < 256 := by
  intro b hb
  unfold utf8Encode at hb
  simp only [List.mem_flatten, List.mem_map] at hb
  obtain ⟨l, ⟨c, -, rfl⟩, hbl⟩ := hb
  have hn : c.toNat < 1114112 := by
    have hv : c.toNat < 55296 ∨ (57343 < c.toNat ∧ c.toNat < 1114112) := c.valid
    omega
  simp only [utf8EncodeChar] at hbl
  split_ifs at hbl <;> simp only [List.mem_cons, List.not_mem_nil, or_false] at hbl <;>
    rcases hbl with rfl | hbl <;> first
      | omega
      | (rcases hbl with rfl | hbl <;> first
          | omega
          | (rcases hbl with rfl | hbl <;> first
              | omega
              | (rcases hbl with rfl | hbl <;> omega)))

theorem utf8EncodeChar_cons (c : Char) : ∃ b0 bs, utf8EncodeChar c = b0 :: bs := by
  simp only [utf8EncodeChar]
  split_ifs <;> exact ⟨_, _, rfl⟩

theorem utf8EncodeChar_length_pos (c : Char) : 0 < (utf8EncodeChar c).length := by
  obtain ⟨b0, bs, h⟩ := utf8EncodeChar_cons c
  simp [h]

theorem utf8DecodeOne_encodeChar (c : Char) (rest : List Nat) :
    utf8DecodeOne (utf8EncodeChar c ++ rest) = some (c.toNat, rest) := by
  have hv : c.toNat < 55296 ∨ (57343 < c.toNat ∧ c.toNat < 1114112) := c.valid
  unfold utf8EncodeChar
  by_cases h1 : c.toNat < 128
  · rw [if_pos h1]
    simp only [List.cons_append, List.nil_append, utf8DecodeOne]
    rw [if_pos h1]
  · rw [if_neg h1]
    by_cases h2 : c.toNat < 2048
    · rw [if_pos h2]
      simp only [List.cons_append, List.nil_append, utf8DecodeOne]
      rw [if_neg (by omega), if_neg (by omega), if_pos (by omega), if_pos (by omega)]
      exact congrArg (fun x => some (x, rest)) (by omega)
    · rw [if_neg h2]
      by_cases h3 : c.toNat < 65536
      · rw [if_pos h3]
        simp only [List.cons_append, List.nil_append, utf8DecodeOne]
        rw [if_neg (by omega), if_neg (by omega), if_neg (by omega), if_pos (by omega)]
        by_cases hE0 : c.toNat < 4096
        · rw [if_pos (show 224 + c.toNat / 4096 = 224 by omega),
            if_neg (show ¬224 + c.toNat / 4096 = 237 by omega), if_pos (by omega)]
          exact congrArg (fun x => some (x, rest)) (by omega)
        · by_cases hED : 224 + c.toNat / 4096 = 237
          · rw [if_neg (show ¬224 + c.toNat / 4096 = 224 by omega), if_pos hED,
              if_pos (by omega)]
            exact congrArg (fun x => some (x, rest)) (by omega)
          · rw [if_neg (show ¬224 + c.toNat / 4096 = 224 by omega), if_neg hED,
              if_pos (by omega)]
            exact congrArg (fun x => some (x, rest)) (by omega)
      · rw [if_neg h3]
        simp only [List.cons_append, List.nil_append, utf8DecodeOne]
        rw [if_neg (by omega), if_neg (by omega), if_neg (by omega), if_neg (by omega),
          if_pos (by omega)]
        by_cases hF0 : c.toNat < 262144
        · rw [if_pos (show 240 + c.toNat / 262144 = 240 by omega),
            if_neg (show ¬240 + c.toNat / 262144 = 244 by omega), if_pos (by omega)]
          exact congrArg (fun x => some (x, rest)) (by omega)
        · by_cases hF4 : 240 + c.toNat / 262144 = 244
          · rw [if_neg (show ¬240 + c.toNat / 262144 = 240 by omega), if_pos hF4,
              if_pos (by omega)]
            exact congrArg (fun x => some (x, rest)) (by omega)
          · rw [if_neg (show ¬240 + c.toNat / 262144 = 240 by omega), if_neg hF4,
              if_pos (by omega)]
            exact congrArg (fun x => some (x, rest)) (by omega)

theorem utf8DecodeAux_encode (cs : List Char) :
    ∀ fuel, (cs.map utf8EncodeChar).flatten.length ≤ fuel →
      utf8DecodeAux fuel ((cs.map utf8EncodeChar).flatten) = some cs := by
  induction cs with
  | nil =>
    intro fuel _
    cases fuel <;> rfl
  | cons c t ih =>
    intro fuel h
    simp only [List.map_cons, List.flatten_cons] at h ⊢
    obtain ⟨b0, bs, hb⟩ := utf8EncodeChar_cons c
    obtain ⟨f, rfl⟩ : ∃ f, fuel = f + 1 := by
      refine ⟨fuel - 1, ?_⟩
      have hpos := utf8EncodeChar_length_pos c
      rw [List.length_append] at h
      omega
    rw [hb, List.cons_append]
    simp only [utf8DecodeAux]
    rw [← List.cons_append, ← hb, utf8DecodeOne_encodeChar c]
    have hrest : (t.map utf8EncodeChar).flatten.length ≤ f := by
      have hpos := utf8EncodeChar_length_pos c
      rw [List.length_append] at h
      omega
    simp only [ih f hrest, charOfNat_toNat]

theorem utf8_roundtrip (s : String) : utf8Decode (utf8Encode s) = some s := by
  unfold utf8Decode utf8Encode
  rw [utf8DecodeAux_encode s.data _ (le_refl _)]
  rfl

/-! ## Rotation window arithmetic and the fallback structure of decrypt -/

theorem xorBytes_lt (key data : List Nat) (hk : ∀ b ∈ key, b < 256)
    (hd : ∀ b ∈ data, b < 256) : ∀ b ∈ XORCipher.xorBytes key data, b < 256 := by
  intro b hb
  unfold XORCipher.xorBytes at hb
  simp only [List.mem_map, List.mem_range] at hb
  obtain ⟨i, hi, rfl⟩ := hb
  have h1 : data.getD i 0 < 256 := by
    rw [List.getD_eq_getElem _ _ hi]
    exact hd _ (List.getElem_mem hi)
  have h2 : key.getD (i % key.length) 0 < 256 := by
    rcases eq_or_ne key [] with h | h
    · subst h; simp
    · have hm : i % key.length < key.length := Nat.mod_lt _ (List.length_pos.2 h)
      rw [List.getD_eq_getElem _ _ hm]
      exact hk _ (List.getElem_mem hm)
  have h256 : (256 : Nat) = 2 ^ 8 := rfl
  rw [h256] at h1 h2 ⊢
  exact Nat.xor_lt_two_pow h1 h2

theorem div_sub_one (t w : Nat) (hw : 0 < w) (h : 1 ≤ t / w) : (t - w) / w = t / w - 1 := by
  have hwt : w ≤ t := by
    have := (Nat.le_div_iff_mul_le hw).1 h
    omega
  have h2 : t - w + w = t := by omega
  have h3 : (t - w + w) / w = (t - w) / w + 1 := Nat.add_div_right _ hw
  rw [h2] at h3
  omega

theorem prev_window_start (t r : Nat) (hr : 0 < r) (h : 1 ≤ t / 3600 / r) :
    (t - r * 3600) / 3600 / r = t / 3600 / r - 1 := by
  rw [Nat.div_div_eq_div_mul, Nat.div_div_eq_div_mul]
  rw [Nat.div_div_eq_div_mul] at h
  rw [show r * 3600 = 3600 * r from Nat.mul_comm r 3600]
  exact div_sub_one t (3600 * r) (by omega) h

theorem decrypt_callback_of_current_some (H : HashLib) (seed : String) (r : Nat)
    (algorithm : String) (t : Nat) (data pt : String) (tp : Bool)
    (h : XORCipher.decrypt (generate_rotating_key H seed t r algorithm 32) data = some pt) :
    CallbackCrypto.decrypt_callback H seed r algorithm t data tp = some pt := by
  unfold CallbackCrypto.decrypt_callback
  simp only [h]

theorem decrypt_callback_of_current_none_false (H : HashLib) (seed : String) (r : Nat)
    (algorithm : String) (t : Nat) (data : String)
    (h : XORCipher.decrypt (generate_rotating_key H seed t r algorithm 32) data = none) :
    CallbackCrypto.decrypt_callback H seed r algorithm t data false = none := by
  unfold CallbackCrypto.decrypt_callback
  simp [h]

theorem decrypt_callback_of_current_none_true (H : HashLib) (seed : String) (r : Nat)
    (algorithm : String) (t : Nat) (data : String)
    (h : XORCipher.decrypt (generate_rotating_key H seed t r algorithm 32) data = none) :
    CallbackCrypto.decrypt_callback H seed r algorithm t data true =
      XORCipher.decrypt
        (generate_key_for_date H seed ((t - r * 3600) / 3600 / r * r * 3600) algorithm 32)
        data := by
  unfold CallbackCrypto.decrypt_callback
  simp [h]

theorem decrypt_of_encrypt (key key2 : List Nat) (P : String)
    (hkey : ∀ b ∈ key, b < 256) :
    XORCipher.decrypt key2 (XORCipher.encrypt key P) =
      utf8Decode (XORCipher.xorBytes key2 (XORCipher.xorBytes key (utf8Encode P))) := by
  unfold XORCipher.decrypt XORCipher.encrypt
  rw [b64_roundtrip _ (xorBytes_lt key (utf8Encode P) hkey (utf8Encode_lt P))]

theorem decrypt_of_encrypt_same_key (key : List Nat) (P : String)
    (hkey : ∀ b ∈ key, b < 256) :
    XORCipher.decrypt key (XORCipher.encrypt key P) = some P := by
  rw [decrypt_of_encrypt key key P hkey, xorBytes_involution]
  exact utf8_roundtrip P

/-! ## C3: rotation fallback structure, skew tolerance and its limits -/

/-- C3 (corrected): the structure of `decrypt_callback` is as claimed — the
current window is tried first, a successful current attempt is returned, a
failed current attempt with `try_previous` falls back to exactly one
rotation window earlier and is retried exactly once, and otherwise the
result is `none`.  The skew property, however, holds only conditionally:
a payload encrypted at window N decrypts to the original plaintext at
window N+1 provided the current-window attempt fails its UTF-8 check, and
decryption at window N+2 returns `none` provided both the N+2-window and
the N+1-window XOR outputs fail their UTF-8 check (without these provisos
the N+2 attempt can return a garbage string, refuted separately). -/
theorem decrypt_callback_properties (H : HashLib)
    (hb256 : ∀ m b, b ∈ H.sha256 m → b < 256)
    (hb512 : ∀ m b, b ∈ H.sha512 m → b < 256)
    (hbmd5 : ∀ m b, b ∈ H.md5 m → b < 256)
    (seed : String) (r : Nat) (hr : 0 < r) (algorithm : String) (P : String)
    (tEnc tDec tDec2 : Nat)
    (hw1 : tDec / 3600 / r = tEnc / 3600 / r + 1)
    (hw2 : tDec2 / 3600 / r = tEnc / 3600 / r + 2)
    (hfail1 : utf8Decode (XORCipher.xorBytes
      (generate_rotating_key H seed tDec r algorithm 32)
      (XORCipher.xorBytes (generate_rotating_key H seed tEnc r algorithm 32)
        (utf8Encode P))) = none)
    (hfail2 : utf8Decode (XORCipher.xorBytes
      (generate_rotating_key H seed tDec2 r algorithm 32)
      (XORCipher.xorBytes (generate_rotating_key H seed tEnc r algorithm 32)
        (utf8Encode P))) = none) :
    (∀ t data pt tp,
        XORCipher.decrypt (generate_rotating_key H seed t r algorithm 32) data = some pt →
        CallbackCrypto.decrypt_callback H seed r algorithm t data tp = some pt) ∧
      (∀ t data,
        XORCipher.decrypt (generate_rotating_key H seed t r algorithm 32) data = none →
        CallbackCrypto.decrypt_callback H seed r algorithm t data false = none) ∧
      (∀ t data,
        XORCipher.decrypt (generate_rotating_key H seed t r algorithm 32) data = none →
        1 ≤ t / 3600 / r →
        CallbackCrypto.decrypt_callback H seed r algorithm t data true =
          XORCipher.decrypt
            (generate_key_for_date H seed (windowStart r t - r * 3600) algorithm 32) data) ∧
      CallbackCrypto.decrypt_callback H seed r algorithm tDec
        (CallbackCrypto.encrypt_callback H seed r algorithm tEnc P) true = some P ∧
      CallbackCrypto.decrypt_callback H seed r algorithm tDec2
        (CallbackCrypto.encrypt_callback H seed r algorithm tEnc P) true = none := by
  have hkN : ∀ b ∈ generate_rotating_key H seed tEnc r algorithm 32, b < 256 :=
    generate_key_lt H hb256 hb512 hbmd5 seed (windowStart r tEnc) algorithm 32
  have honeback : ∀ t : Nat, 1 ≤ t / 3600 / r →
      (t - r * 3600) / 3600 / r * r * 3600 = windowStart r t - r * 3600 := by
    intro t ht
    rw [prev_window_start t r hr ht]
    unfold windowStart
    rw [Nat.mul_assoc, Nat.mul_assoc, Nat.sub_mul, Nat.one_mul]
  refine ⟨fun t data pt tp h => decrypt_callback_of_current_some H seed r algorithm t data
      pt tp h,
    fun t data h => decrypt_callback_of_current_none_false H seed r algorithm t data h,
    fun t data h ht => ?_, ?_, ?_⟩
  · rw [decrypt_callback_of_current_none_true H seed r algorithm t data h, honeback t ht]
  · have hcur : XORCipher.decrypt (generate_rotating_key H seed tDec r algorithm 32)
        (CallbackCrypto.encrypt_callback H seed r algorithm tEnc P) = none := by
      rw [show CallbackCrypto.encrypt_callback H seed r algorithm tEnc P =
        XORCipher.encrypt (generate_rotating_key H seed tEnc r algorithm 32) P from rfl]
      rw [decrypt_of_encrypt _ _ P hkN]
      exact hfail1
    rw [decrypt_callback_of_current_none_true H seed r algorithm tDec _ hcur]
    rw [honeback tDec (by rw [hw1]; generalize tEnc / 3600 / r = q; omega)]
    have hdate : windowStart r tDec - r * 3600 = windowStart r tEnc := by
      unfold windowStart
      rw [hw1]
      rw [Nat.mul_assoc, Nat.mul_assoc, Nat.add_mul, Nat.one_mul, Nat.add_sub_cancel]
    rw [hdate]
    exact decrypt_of_encrypt_same_key (generate_rotating_key H seed tEnc r algorithm 32)
      P hkN
  · have hcur : XORCipher.decrypt (generate_rotating_key H seed tDec2 r algorithm 32)
        (CallbackCrypto.encrypt_callback H seed r algorithm tEnc P) = none := by
      rw [show CallbackCrypto.encrypt_callback H seed r algorithm tEnc P =
        XORCipher.encrypt (generate_rotating_key H seed tEnc r algorithm 32) P from rfl]
      rw [decrypt_of_encrypt _ _ P hkN]
      exact hfail2
    rw [decrypt_callback_of_current_none_true H seed r algorithm tDec2 _ hcur]
    rw [honeback tDec2 (by rw [hw2]; generalize tEnc / 3600 / r = q; omega)]
    have hdate : windowStart r tDec2 - r * 3600 = windowStart r tDec := by
      unfold windowStart
      rw [hw1, hw2]
      rw [Nat.mul_assoc, Nat.mul_assoc, Nat.add_mul, Nat.add_mul, Nat.one_mul]
      omega
    rw [hdate]
    rw [show generate_key_for_date H seed (windowStart r tDec) algorithm 32 =
      generate_rotating_key H seed tDec r algorithm 32 from rfl]
    rw [show CallbackCrypto.encrypt_callback H seed r algorithm tEnc P =
      XORCipher.encrypt (generate_rotating_key H seed tEnc r algorithm 32) P from rfl]
    rw [decrypt_of_encrypt _ _ P hkN]
    exact hfail1

/-- Witness for C3 (corrected) at a concrete instance: payload `"!"`
encrypted in the 24-hour window of 2025-11-11 decrypts via the fallback in
the window of 2025-11-12 and returns `none` in the window of 2025-11-13
(both wrong-key XOR outputs fail the UTF-8 check there). -/
theorem decrypt_callback_properties_witness :
    (∀ t data pt tp,
        XORCipher.decrypt (generate_rotating_key theHashLib "insovietrussiawehackyou" t 24
          "sha256" 32) data = some pt →
        CallbackCrypto.decrypt_callback theHashLib "insovietrussiawehackyou" 24 "sha256" t
          data tp = some pt) ∧
      (∀ t data,
        XORCipher.decrypt (generate_rotating_key theHashLib "insovietrussiawehackyou" t 24
          "sha256" 32) data = none →
        CallbackCrypto.decrypt_callback theHashLib "insovietrussiawehackyou" 24 "sha256" t
          data false = none) ∧
      (∀ t data,
        XORCipher.decrypt (generate_rotating_key theHashLib "insovietrussiawehackyou" t 24
          "sha256" 32) data = none →
        1 ≤ t / 3600 / 24 →
        CallbackCrypto.decrypt_callback theHashLib "insovietrussiawehackyou" 24 "sha256" t
          data true =
          XORCipher.decrypt (generate_key_for_date theHashLib "insovietrussiawehackyou"
            (windowStart 24 t - 24 * 3600) "sha256" 32) data) ∧
      CallbackCrypto.decrypt_callback theHashLib "insovietrussiawehackyou" 24 "sha256"
        1762948800
        (CallbackCrypto.encrypt_callback theHashLib "insovietrussiawehackyou" 24 "sha256"
          1762862400 "!") true = some "!" ∧
      CallbackCrypto.decrypt_callback theHashLib "insovietrussiawehackyou" 24 "sha256"
        1763035200
        (CallbackCrypto.encrypt_callback theHashLib "insovietrussiawehackyou" 24 "sha256"
          1762862400 "!") true = none :=
  decrypt_callback_properties theHashLib (fun m => sha256impl_lt m)
    (fun m => sha512Model_lt m) (fun m => md5Model_lt m) "insovietrussiawehackyou" 24
    (by omega) "sha256" "!" 1762862400 1762948800 1763035200 (by decide) (by decide)
    (by decide) (by decide)

/-- Counterexample for C3 as stated: the default seed, a payload `"A"`
encrypted in the window of 2025-11-13, decrypted two windows later
(2025-11-15): because the wrong-key XOR output `0x7b` happens to be valid
UTF-8, `decrypt_callback` does not fail but returns the garbage string
`"\x7b"`, so decrypting at window N+2 does not fail. -/
theorem decrypt_at_window_plus_two_not_none :
    CallbackCrypto.encrypt_callback theHashLib "insovietrussiawehackyou" 24 "sha256"
        1763035200 "A" = "tw==" ∧
      1763208000 / 3600 / 24 = 1763035200 / 3600 / 24 + 2 ∧
      CallbackCrypto.decrypt_callback theHashLib "insovietrussiawehackyou" 24 "sha256"
        1763208000 "tw==" true = some "\x7b" ∧
      some "\x7b" ≠ (none : Option String) := by
  exact ⟨by decide, by decide, by decide, by decide⟩

end VPS
